import Mathlib

/-!
Shallow embedding of the SHIORI protocol codec (shiori.go).

Go strings are modelled as `List Char`; a Go `(value, error)` pair is a
Lean pair with an `Option Err` error slot; the panic possibility of the
indexing `lines[0]` is made explicit by wrapping the parsers' results in
`Option` (with `none` standing for an out-of-bounds abort, shown unreachable).
Go's regexp patterns are compiled by hand into deterministic matchers: each
pattern used by the code admits a forced parse (greedy character classes are
disjoint from their followers), except the request-line pattern whose greedy
leading `.+` is rendered by trying the longest viable split first.
Per Go regexp semantics, `.` does not match a newline while a negated class
such as the non-colon class does, and `^`/`$` anchor at start/end of text.
-/

/-- Str models a Go string as its list of characters. -/
abbrev Str := List Char

/-- Method models the Go `Method` enumeration (`InvalidMethod`, `GET`, `NOTIFY`). -/
inductive Method where
  | InvalidMethod
  | GET
  | NOTIFY
deriving DecidableEq, Repr

/-- Method.String models the Go `Method.String` method. -/
def Method.String : Method → Str
  | Method.GET => "GET".data
  | Method.NOTIFY => "NOTIFY".data
  | Method.InvalidMethod => "".data

/-- Protocol models the Go `Protocol` enumeration. -/
inductive Protocol where
  | InvalidProtocol
  | SHIORI
deriving DecidableEq, Repr

/-- Protocol.String models the Go `Protocol.String` method, which returns
the literal "SHIORI" for every enumeration value. -/
def Protocol.String (_ : Protocol) : Str := "SHIORI".data

/-- Err models the Go error values produced by the codec: each constructor is
one of the concrete error types of shiori.go, carrying the string payload the
code puts into it; `NumError` stands for the error returned by `strconv.Atoi`. -/
inductive Err where
  | InvalidMethodError (token : Str)
  | ParseRequestError (msg : Str)
  | ParseResponseError (msg : Str)
  | ParseHeaderError (msg : Str)
  | NumError (msg : Str)
deriving DecidableEq, Repr

/-- ToMethod models the Go `ToMethod` switch: "GET" and "NOTIFY" convert,
everything else yields `InvalidMethod` together with an `InvalidMethodError`
carrying the offending token. -/
def ToMethod (method : Str) : Method × Option Err :=
  if method = "GET".data then (Method.GET, none)
  else if method = "NOTIFY".data then (Method.NOTIFY, none)
  else (Method.InvalidMethod, some (Err.InvalidMethodError method))

/-- Headers models the Go `map[string]string` header mapping as an association
list whose insert overwrites in place, so that lookups agree with the map. -/
abbrev Headers := List (Str × Str)

/-- headersInsert models the Go map assignment `headers[k] = v`:
an existing binding of `k` is overwritten, otherwise the pair is appended. -/
def headersInsert (hs : Headers) (k v : Str) : Headers :=
  match hs with
  | [] => [(k, v)]
  | (k0, v0) :: rest =>
    if k0 = k then (k, v) :: rest else (k0, v0) :: headersInsert rest k v

/-- headersLookup models the Go map read `headers[k]`, returning the zero
value "" (the empty list of characters) when the key is absent. -/
def headersLookup (hs : Headers) (k : Str) : Str :=
  match hs with
  | [] => []
  | (k0, v0) :: rest => if k0 = k then v0 else headersLookup rest k

/-- headersString models the Go `Headers.String` renderer, emitting one
`key: value\r\n` line per binding, in the order of the association list. -/
def headersString : Headers → Str
  | [] => []
  | (k, v) :: rest => k ++ ':' :: ' ' :: (v ++ '\r' :: '\n' :: headersString rest)

/-- Request models the Go `Request` struct. -/
structure Request where
  Method : Method
  Protocol : Protocol
  Version : Str
  Headers : Headers
deriving DecidableEq, Repr

/-- Response models the Go `Response` struct; `Code` is the Go `int`. -/
structure Response where
  Code : Int
  Protocol : Protocol
  Version : Str
  Headers : Headers
deriving DecidableEq, Repr

/-- Response.Message models the Go `Response.Message` switch on the code:
200 yields "OK", every other code yields the empty string. -/
def Response.Message (response : Response) : Str :=
  if response.Code = 200 then "OK".data else []

/-- Response.Value models the Go `Response.Value(i)`, which ignores its
index argument and reads the header literally named "Value". -/
def Response.Value (response : Response) (_i : Int) : Str :=
  headersLookup response.Headers "Value".data

/-- intDec models the `%d` formatting of a Go int. -/
def intDec (i : Int) : Str := (toString i).data

/-- Response.String models the Go `Response.String` formatting
`"%s/%s %d %s\r\n%s\r\n"` applied to protocol, version, code, message
and headers. -/
def Response.String (response : Response) : Str :=
  Protocol.String response.Protocol ++ '/' ::
    (response.Version ++ ' ' ::
      (intDec response.Code ++ ' ' ::
        (Response.Message response ++ '\r' :: '\n' ::
          (headersString response.Headers ++ '\r' :: '\n' :: []))))

/-- splitCRLF models Go `strings.Split(s, "\r\n")`: leftmost, non-overlapping
splitting on the two-character separator; it always yields at least one part. -/
def splitCRLF : Str → List Str
  | [] => [[]]
  | '\r' :: '\n' :: rest => [] :: splitCRLF rest
  | c :: rest =>
    match splitCRLF rest with
    | [] => [[c]]
    | l :: ls => (c :: l) :: ls

/-- headerMatch models the Go pattern `^([^:]+): (.*)$` on one line: the name
is the non-empty run of non-colon characters before the first colon, the colon
must be followed by one space, and the value is the rest of the line, which
must be newline-free because `.` does not match a newline. -/
def headerMatch (line : Str) : Option (Str × Str) :=
  match line.dropWhile (· ≠ ':') with
  | ':' :: ' ' :: value =>
    if (line.takeWhile (· ≠ ':')).isEmpty || value.contains '\n' then none
    else some (line.takeWhile (· ≠ ':'), value)
  | _ => none

/-- ParseHeaderLinesAux is the loop of the Go `ParseHeaderLines`, carrying the
headers accumulated so far: it stops with success at the first empty line or
at the end of the lines, and stops with a `ParseHeaderError` at the first
line that the header pattern does not match. -/
def ParseHeaderLinesAux (headers : Headers) : List Str → Headers × Option Err
  | [] => (headers, none)
  | line :: rest =>
    if line.isEmpty then (headers, none)
    else
      match headerMatch line with
      | none =>
        (headers, some (Err.ParseHeaderError ("header line parse failed: ".data ++ line)))
      | some (k, v) => ParseHeaderLinesAux (headersInsert headers k v) rest

/-- ParseHeaderLines models the Go `ParseHeaderLines`, starting from the
empty mapping. -/
def ParseHeaderLines (headerLines : List Str) : Headers × Option Err :=
  ParseHeaderLinesAux [] headerLines

/-- dropLit strips an expected literal from the front of a list of
characters, failing when the literal is not a prefix. -/
def dropLit : Str → Str → Option Str
  | [], cs => some cs
  | _ :: _, [] => none
  | p :: ps, c :: cs => if c = p then dropLit ps cs else none

/-- isVersion models the Go pattern `\d+\.\d+` anchored on a whole token:
a non-empty digit run, one dot, a non-empty digit run. -/
def isVersion (cs : Str) : Bool :=
  match cs.dropWhile (·.isDigit) with
  | '.' :: b => !(cs.takeWhile (·.isDigit)).isEmpty && !b.isEmpty && b.all (·.isDigit)
  | _ => false

/-- requestLineTry renders the greedy `(.+)` of the request-line pattern by
trying prefixes from length `k` downwards: the chosen split is the longest
prefix (newline-free, since `.` does not match a newline) that is followed
by the literal " SHIORI/" and then a version token reaching the end. -/
def requestLineTry : Nat → Str → Option (Str × Str)
  | 0, _ => none
  | k + 1, line =>
    let m := line.take (k + 1)
    match dropLit " SHIORI/".data (line.drop (k + 1)) with
    | some v =>
      if isVersion v && !m.contains '\n' then some (m, v) else requestLineTry k line
    | none => requestLineTry k line

/-- requestLineMatch models the Go pattern `^(.+) SHIORI/(\d+\.\d+)$` with
leftmost-first greedy submatch semantics, returning the method token and the
version captures. -/
def requestLineMatch (line : Str) : Option (Str × Str) :=
  requestLineTry line.length line

/-- statusLineMatch models the Go pattern `^SHIORI/(\d+\.\d+) (\d+) (.+)$`:
the greedy digit runs are each followed by a non-digit literal, so the parse
is forced; the reason phrase is the non-empty newline-free remainder.
It returns the version, the code digits and the reason captures. -/
def statusLineMatch (line : Str) : Option (Str × Str × Str) :=
  match dropLit "SHIORI/".data line with
  | none => none
  | some rest =>
    match rest.dropWhile (·.isDigit), (rest.takeWhile (·.isDigit)).isEmpty with
    | '.' :: r2, false =>
      match r2.dropWhile (·.isDigit), (r2.takeWhile (·.isDigit)).isEmpty with
      | ' ' :: r4, false =>
        match r4.dropWhile (·.isDigit), (r4.takeWhile (·.isDigit)).isEmpty with
        | ' ' :: reason, false =>
          if reason.isEmpty || reason.contains '\n' then none
          else some (rest.takeWhile (·.isDigit) ++ '.' :: r2.takeWhile (·.isDigit),
                     r4.takeWhile (·.isDigit), reason)
        | _, _ => none
      | _, _ => none
    | _, _ => none

/-- digitsToNat reads a digit run as a decimal number. -/
def digitsToNat (ds : Str) : Nat :=
  ds.foldl (fun acc c => acc * 10 + (c.toNat - 48)) 0

/-- Atoi models Go `strconv.Atoi` on the unsigned digit strings produced by
the status-line pattern: a non-empty all-digit string converts to its value
when it fits a 64-bit int and otherwise yields the clamped maximum together
with a range error; anything else yields a syntax error. -/
def Atoi (s : Str) : Int × Option Err :=
  if s.isEmpty || !s.all (·.isDigit) then
    (0, some (Err.NumError "strconv.Atoi: invalid syntax".data))
  else if digitsToNat s ≤ 9223372036854775807 then
    (((digitsToNat s : Nat) : Int), none)
  else
    ((9223372036854775807 : Int), some (Err.NumError "strconv.Atoi: value out of range".data))

/-- ParseRequest models the Go `ParseRequest`: the input is split on CRLF,
line 0 is matched against the request-line pattern, the method token is
converted, and the remaining lines are parsed as headers. Each branch
returns the `Request` fields exactly as the sequential Go assignments have
left them at the corresponding return site; `none` marks the out-of-bounds
abort that `lines[0]` would be on an empty split, shown unreachable. -/
def ParseRequest (requestStr : Str) : Option (Request × Option Err) :=
  match splitCRLF requestStr with
  | [] => none
  | requestLine :: headerLines =>
    match requestLineMatch requestLine with
    | none =>
      some ({ Method := Method.InvalidMethod, Protocol := Protocol.SHIORI,
              Version := [], Headers := [] },
            some (Err.ParseRequestError ("request line parse failed: ".data ++ requestLine)))
    | some (tok, ver) =>
      match ToMethod tok with
      | (m, some e) =>
        some ({ Method := m, Protocol := Protocol.SHIORI, Version := [], Headers := [] },
              some e)
      | (m, none) =>
        match ParseHeaderLines headerLines with
        | (hs, some e) =>
          some ({ Method := m, Protocol := Protocol.SHIORI, Version := ver, Headers := hs },
                some e)
        | (hs, none) =>
          some ({ Method := m, Protocol := Protocol.SHIORI, Version := ver, Headers := hs },
                none)

/-- ParseResponse models the Go `ParseResponse`: the input is split on CRLF,
line 0 is matched against the status-line pattern, the code digits go through
`Atoi` (whose error is propagated after the version has been stored), and the
remaining lines are parsed as headers; the reason capture is discarded. -/
def ParseResponse (responseStr : Str) : Option (Response × Option Err) :=
  match splitCRLF responseStr with
  | [] => none
  | statusLine :: headerLines =>
    match statusLineMatch statusLine with
    | none =>
      some ({ Code := 0, Protocol := Protocol.SHIORI, Version := [], Headers := [] },
            some (Err.ParseResponseError ("status line parse failed: ".data ++ statusLine)))
    | some (ver, codeDigits, _reason) =>
      match Atoi codeDigits with
      | (code, some e) =>
        some ({ Code := code, Protocol := Protocol.SHIORI, Version := ver, Headers := [] },
              some e)
      | (code, none) =>
        match ParseHeaderLines headerLines with
        | (hs, some e) =>
          some ({ Code := code, Protocol := Protocol.SHIORI, Version := ver, Headers := hs },
                some e)
        | (hs, none) =>
          some ({ Code := code, Protocol := Protocol.SHIORI, Version := ver, Headers := hs },
                none)

/-- statusLineShapeSpec states the spec's wording of the status-line shape:
the literal "SHIORI/", a version token matching digits-dot-digits, a space,
one or more code digits, a space, and a reason phrase of at least one
character — amended with the newline exclusion that the Go pattern's `.`
imposes on the reason phrase. -/
def statusLineShapeSpec (line : Str) : Prop :=
  ∃ v c r, line = "SHIORI/".data ++ v ++ ' ' :: (c ++ ' ' :: r) ∧
    isVersion v = true ∧ c ≠ [] ∧ (∀ x ∈ c, x.isDigit = true) ∧ r ≠ [] ∧ '\n' ∉ r

/-- lookupLast returns the value carried by the last pair binding a key,
used to state the last-write-wins property of header parsing. -/
def lookupLast (k : Str) : List (Str × Str) → Option Str
  | [] => none
  | (k0, v) :: rest =>
    match lookupLast k rest with
    | some v' => some v'
    | none => if k0 = k then some v else none

/-- splitCRLF never returns the empty list of lines. -/
theorem splitCRLF_ne_nil (cs : Str) : splitCRLF cs ≠ [] := by
  rw [splitCRLF.eq_def]
  split
  · simp
  · simp
  · split <;> simp

/-- isEmpty is false on a list known to be non-nil. -/
theorem isEmpty_false_of_ne (l : Str) (h : l ≠ []) : l.isEmpty = false := by
  cases l with
  | nil => exact absurd rfl h
  | cons a b => rfl

/-- C1: parsing "GET SHIORI/2.6\r\nSender: test\r\n\r\n" succeeds with a nil
error and yields Method GET, Protocol SHIORI, Version "2.6" and exactly the
one-entry header mapping Sender ↦ test. -/
theorem parseRequest_get_scenario :
    ParseRequest "GET SHIORI/2.6\r\nSender: test\r\n\r\n".data =
      some ({ Method := Method.GET, Protocol := Protocol.SHIORI, Version := "2.6".data,
              Headers := [("Sender".data, "test".data)] }, none) := by
  decide

/-- C2: ToMethod succeeds exactly on "GET" and "NOTIFY", rendering the result
back is the identity there, and every other token fails with an
InvalidMethodError carrying exactly that token. -/
theorem toMethod_spec (m : Str) :
    ((m = "GET".data ∨ m = "NOTIFY".data) →
      (ToMethod m).2 = none ∧ Method.String (ToMethod m).1 = m) ∧
    (m ≠ "GET".data → m ≠ "NOTIFY".data →
      ToMethod m = (Method.InvalidMethod, some (Err.InvalidMethodError m))) := by
  constructor
  · rintro (rfl | rfl) <;> exact ⟨by decide, by decide⟩
  · intro h1 h2
    unfold ToMethod
    rw [if_neg h1, if_neg h2]

/-- toMethod_spec applied to the token "NOTIFY" (success and round-trip) and
to the token "FOO" (failure carrying the token). -/
theorem toMethod_spec_witness :
    ((ToMethod "NOTIFY".data).2 = none ∧
      Method.String (ToMethod "NOTIFY".data).1 = "NOTIFY".data) ∧
    ToMethod "FOO".data = (Method.InvalidMethod, some (Err.InvalidMethodError "FOO".data)) :=
  ⟨(toMethod_spec "NOTIFY".data).1 (Or.inr rfl),
   (toMethod_spec "FOO".data).2 (by decide) (by decide)⟩

/-- C9: Response.Value ignores its index argument and always reads the header
literally named "Value"; in particular Value 0 and Value 7 agree. -/
theorem response_value_ignores_index (response : Response) (i : Int) :
    Response.Value response i = headersLookup response.Headers "Value".data ∧
    Response.Value response 0 = Response.Value response 7 :=
  ⟨rfl, rfl⟩

/-- C7: a Response renders as SHIORI/Version, space, Code, space, the reason
phrase, CRLF, the rendered headers and a final CRLF, where the reason phrase
is computed solely from Code — "OK" at 200 and empty otherwise, so a Response
with Code 500 renders an empty reason phrase. -/
theorem response_render_shape (response : Response) :
    Response.String response =
      "SHIORI/".data ++ (response.Version ++ (' ' :: (intDec response.Code ++ (' ' ::
        (Response.Message response ++ ('\r' :: '\n' ::
          (headersString response.Headers ++ ('\r' :: '\n' :: [])))))))) ∧
    Response.Message response = (if response.Code = 200 then "OK".data else []) ∧
    Response.Message { response with Code := 500 } = [] := by
  have key : ∀ X : Str, "SHIORI".data ++ ('/' :: X) = "SHIORI/".data ++ X := fun X => rfl
  refine ⟨?_, rfl, by simp [Response.Message]⟩
  show "SHIORI".data ++ ('/' :: (response.Version ++ (' ' :: (intDec response.Code ++ (' ' ::
    (Response.Message response ++ ('\r' :: '\n' ::
      (headersString response.Headers ++ ('\r' :: '\n' :: []))))))))) = _
  exact key _

/-- C10: both parsers are total: splitting any input on CRLF yields at least
one line, so line 0 exists and each parser returns a value-error pair. -/
theorem parsers_total (s : Str) :
    splitCRLF s ≠ [] ∧ (ParseRequest s).isSome = true ∧ (ParseResponse s).isSome = true := by
  have hs := splitCRLF_ne_nil s
  obtain ⟨l, ls, hl⟩ : ∃ l ls, splitCRLF s = l :: ls := by
    cases h : splitCRLF s with
    | nil => exact absurd h hs
    | cons a b => exact ⟨a, b, rfl⟩
  refine ⟨hs, ?_, ?_⟩
  · simp only [ParseRequest, hl]
    split
    · simp
    · split
      · simp
      · split <;> simp
  · simp only [ParseResponse, hl]
    split
    · simp
    · split
      · simp
      · split <;> simp

/-- C8: whenever ParseRequest or ParseResponse returns a nil error, the
returned message has Protocol SHIORI. -/
theorem parse_protocol_invariant :
    (∀ s r e, ParseRequest s = some (r, e) → e = none → r.Protocol = Protocol.SHIORI) ∧
    (∀ s r e, ParseResponse s = some (r, e) → e = none → r.Protocol = Protocol.SHIORI) := by
  constructor
  · intro s r e h _
    unfold ParseRequest at h
    split at h
    · exact absurd h (by simp)
    · split at h
      · obtain ⟨h1, h2⟩ := Prod.mk.injEq .. ▸ Option.some.injEq .. ▸ h
        exact h1 ▸ rfl
      · split at h
        · obtain ⟨h1, h2⟩ := Prod.mk.injEq .. ▸ Option.some.injEq .. ▸ h
          exact h1 ▸ rfl
        · split at h <;>
          · obtain ⟨h1, h2⟩ := Prod.mk.injEq .. ▸ Option.some.injEq .. ▸ h
            exact h1 ▸ rfl
  · intro s r e h _
    unfold ParseResponse at h
    split at h
    · exact absurd h (by simp)
    · split at h
      · obtain ⟨h1, h2⟩ := Prod.mk.injEq .. ▸ Option.some.injEq .. ▸ h
        exact h1 ▸ rfl
      · split at h
        · obtain ⟨h1, h2⟩ := Prod.mk.injEq .. ▸ Option.some.injEq .. ▸ h
          exact h1 ▸ rfl
        · split at h <;>
          · obtain ⟨h1, h2⟩ := Prod.mk.injEq .. ▸ Option.some.injEq .. ▸ h
            exact h1 ▸ rfl

/-- parse_protocol_invariant applied to a concrete successfully parsed
request. -/
theorem parse_protocol_invariant_witness :
    ({ Method := Method.GET, Protocol := Protocol.SHIORI, Version := "2.6".data,
       Headers := [("Sender".data, "test".data)] } : Request).Protocol = Protocol.SHIORI :=
  parse_protocol_invariant.1 "GET SHIORI/2.6\r\nSender: test\r\n\r\n".data
    { Method := Method.GET, Protocol := Protocol.SHIORI, Version := "2.6".data,
      Headers := [("Sender".data, "test".data)] } none (by decide) rfl

/-- ParseHeaderLinesAux ignores everything after a first empty line. -/
theorem parseHeaderLinesAux_stop (before after : List Str) (acc : Headers)
    (h : [] ∉ before) :
    ParseHeaderLinesAux acc (before ++ [] :: after) = ParseHeaderLinesAux acc before := by
  induction before generalizing acc with
  | nil => simp [ParseHeaderLinesAux]
  | cons line rest ih =>
    simp only [List.mem_cons, not_or] at h
    obtain ⟨h1, h2⟩ := h
    have hne : line.isEmpty = false := isEmpty_false_of_ne line (fun hl => h1 hl.symm)
    simp only [List.cons_append, ParseHeaderLinesAux, hne]
    cases hm : headerMatch line with
    | none => simp
    | some kv =>
      obtain ⟨k, v⟩ := kv
      simp only [Bool.false_eq_true, if_false]
      exact ih (headersInsert acc k v) h2

/-- C3: ParseHeaderLines stops successfully at the first empty line: the
result equals the parse of the lines before that empty line, lines after it
are never examined, success there implies overall success with the headers
accumulated before, and an empty first line yields an empty mapping with no
error. -/
theorem headers_stop_at_empty_line (before after : List Str) (h : [] ∉ before) :
    ParseHeaderLines (before ++ [] :: after) = ParseHeaderLines before ∧
    ((ParseHeaderLines before).2 = none →
      ParseHeaderLines (before ++ [] :: after) = ((ParseHeaderLines before).1, none)) ∧
    ParseHeaderLines ([] :: after) = ([], none) := by
  refine ⟨parseHeaderLinesAux_stop before after [] h, ?_, rfl⟩
  intro h2
  rw [ParseHeaderLines, parseHeaderLinesAux_stop before after [] h]
  rw [ParseHeaderLines] at h2 ⊢
  rw [← h2]

/-- headers_stop_at_empty_line applied to a concrete list with a malformed
line after the terminating empty line. -/
theorem headers_stop_at_empty_line_witness :
    ParseHeaderLines (["A: 1".data] ++ [] :: ["%%%".data]) = ParseHeaderLines ["A: 1".data] :=
  (headers_stop_at_empty_line ["A: 1".data] ["%%%".data] (by decide)).1

/-- ParseHeaderLinesAux fails at the first non-matching non-empty line,
keeping the headers accumulated from the well-formed lines before it. -/
theorem parseHeaderLinesAux_err (before : List Str) (line : Str) (after : List Str)
    (acc : Headers)
    (hb : ∀ l ∈ before, l ≠ [] ∧ (headerMatch l).isSome = true)
    (hline : line ≠ []) (hm : headerMatch line = none) :
    ParseHeaderLinesAux acc (before ++ line :: after) =
      ((ParseHeaderLinesAux acc before).1,
       some (Err.ParseHeaderError ("header line parse failed: ".data ++ line))) := by
  induction before generalizing acc with
  | nil =>
    have hne : line.isEmpty = false := isEmpty_false_of_ne line hline
    simp only [List.nil_append, ParseHeaderLinesAux, hne, hm]
    simp
  | cons l rest ih =>
    obtain ⟨hl1, hl2⟩ := hb l (List.mem_cons_self l rest)
    obtain ⟨kv, hkv⟩ := Option.isSome_iff_exists.mp hl2
    obtain ⟨k, v⟩ := kv
    have hle : l.isEmpty = false := isEmpty_false_of_ne l hl1
    simp only [List.cons_append, ParseHeaderLinesAux, hle, hkv]
    simp only [Bool.false_eq_true, if_false]
    exact ih (headersInsert acc k v) (fun x hx => hb x (List.mem_cons_of_mem l hx))

/-- C4: when ParseHeaderLines reaches a non-empty line that the header
pattern does not match, it fails immediately with a ParseHeaderError whose
payload identifies that exact line, and the mapping returned alongside the
error is exactly the headers parsed from the lines before it. -/
theorem headers_fail_on_bad_line (before : List Str) (line : Str) (after : List Str)
    (hb : ∀ l ∈ before, l ≠ [] ∧ (headerMatch l).isSome = true)
    (hline : line ≠ []) (hm : headerMatch line = none) :
    ParseHeaderLines (before ++ line :: after) =
      ((ParseHeaderLines before).1,
       some (Err.ParseHeaderError ("header line parse failed: ".data ++ line))) :=
  parseHeaderLinesAux_err before line after [] hb hline hm

/-- headers_fail_on_bad_line applied to the line "BadLineNoColon" inside an
otherwise valid block. -/
theorem headers_fail_on_bad_line_witness :
    ParseHeaderLines (["A: 1".data] ++ "BadLineNoColon".data :: ["B: 2".data]) =
      ((ParseHeaderLines ["A: 1".data]).1,
       some (Err.ParseHeaderError ("header line parse failed: ".data ++ "BadLineNoColon".data))) :=
  headers_fail_on_bad_line ["A: 1".data] "BadLineNoColon".data ["B: 2".data]
    (by decide) (by decide) (by decide)

/-- headersLookup after headersInsert: the inserted key reads the new value
and every other key is unchanged. -/
theorem headersLookup_insert (hs : Headers) (k v k' : Str) :
    headersLookup (headersInsert hs k v) k' =
      if k = k' then v else headersLookup hs k' := by
  induction hs with
  | nil =>
    by_cases hk : k = k' <;> simp [headersInsert, headersLookup, hk]
  | cons p rest ih =>
    obtain ⟨k0, v0⟩ := p
    by_cases h0 : k0 = k
    · subst h0
      by_cases hk : k0 = k' <;> simp [headersInsert, headersLookup, hk]
    · by_cases hk : k0 = k'
      · subst hk
        have : ¬ k = k0 := fun hh => h0 hh.symm
        simp [headersInsert, headersLookup, h0, this]
      · simp [headersInsert, headersLookup, h0, hk, ih]

/-- ParseHeaderLinesAux on well-formed lines looks up a key to the value of
its last line binding that key, falling back to the accumulator. -/
theorem parseHeaderLinesAux_lookup (lines : List Str) (acc : Headers) (k : Str)
    (hg : ∀ l ∈ lines, l ≠ [] ∧ (headerMatch l).isSome = true) :
    headersLookup (ParseHeaderLinesAux acc lines).1 k =
      (lookupLast k (lines.filterMap headerMatch)).getD (headersLookup acc k) := by
  induction lines generalizing acc with
  | nil => simp [ParseHeaderLinesAux, lookupLast]
  | cons l rest ih =>
    obtain ⟨h1, h2⟩ := hg l (List.mem_cons_self l rest)
    obtain ⟨kv, hkv⟩ := Option.isSome_iff_exists.mp h2
    obtain ⟨kk, vv⟩ := kv
    have hle : l.isEmpty = false := isEmpty_false_of_ne l h1
    simp only [ParseHeaderLinesAux, hle, hkv, List.filterMap_cons]
    simp only [Bool.false_eq_true, if_false]
    rw [ih (headersInsert acc kk vv) (fun x hx => hg x (List.mem_cons_of_mem l hx))]
    rw [headersLookup_insert]
    cases hll : lookupLast k (rest.filterMap headerMatch) with
    | some v' => simp [lookupLast, hll]
    | none =>
      by_cases hk : kk = k <;> simp [lookupLast, hll, hk]

/-- C5: a later header line binding the same name overwrites the earlier
binding: for every well-formed header block before the empty-line terminator,
looking up a name in the parsed mapping yields the value of its last line
binding that name; concretely the header lines of "A: 1\r\nA: 2\r\n\r\n"
parse to exactly the one-entry mapping A ↦ 2. -/
theorem headers_last_write_wins :
    (∀ before after k, (∀ l ∈ before, l ≠ [] ∧ (headerMatch l).isSome = true) →
      headersLookup (ParseHeaderLines (before ++ [] :: after)).1 k =
        (lookupLast k (before.filterMap headerMatch)).getD []) ∧
    ParseHeaderLines (splitCRLF "A: 1\r\nA: 2\r\n\r\n".data) =
      ([("A".data, "2".data)], none) := by
  constructor
  · intro before after k hg
    have hnotin : [] ∉ before := fun hmem => (hg [] hmem).1 rfl
    rw [ParseHeaderLines, parseHeaderLinesAux_stop before after [] hnotin]
    exact parseHeaderLinesAux_lookup before [] k hg
  · decide

/-- headers_last_write_wins applied to the duplicate-key block A: 1, A: 2. -/
theorem headers_last_write_wins_witness :
    headersLookup (ParseHeaderLines (["A: 1".data, "A: 2".data] ++ [] :: [])).1 "A".data =
      (lookupLast "A".data (["A: 1".data, "A: 2".data].filterMap headerMatch)).getD [] :=
  headers_last_write_wins.1 ["A: 1".data, "A: 2".data] [] "A".data (by decide)

/-- dropLit succeeds on the literal it expects, returning the remainder. -/
theorem dropLit_self (p cs : Str) : dropLit p (p ++ cs) = some cs := by
  induction p with
  | nil => rfl
  | cons c ps ih => simp [dropLit, ih]

/-- dropLit succeeds only when the expected literal is a prefix. -/
theorem dropLit_eq_some {p l cs : Str} (h : dropLit p l = some cs) : l = p ++ cs := by
  induction p generalizing l with
  | nil =>
    simp only [dropLit, Option.some.injEq] at h
    simp [h]
  | cons c ps ih =>
    cases l with
    | nil => simp [dropLit] at h
    | cons a rest =>
      simp only [dropLit] at h
      by_cases hac : a = c
      · subst hac
        rw [if_pos rfl] at h
        simp [ih h]
      · rw [if_neg hac] at h
        exact absurd h (by simp)

/-- takeWhile and dropWhile on a digit run followed by a non-digit. -/
theorem takeWhile_digits_append (a : Str) (c : Char) (b : Str)
    (ha : ∀ x ∈ a, x.isDigit = true) (hc : c.isDigit = false) :
    (a ++ c :: b).takeWhile (·.isDigit) = a ∧
    (a ++ c :: b).dropWhile (·.isDigit) = c :: b := by
  induction a with
  | nil => simp [List.takeWhile_cons, List.dropWhile_cons, hc]
  | cons x xs ih =>
    have hx := ha x (List.mem_cons_self x xs)
    have ihh := ih fun y hy => ha y (List.mem_cons_of_mem x hy)
    constructor
    · simp [List.takeWhile_cons, hx, ihh.1]
    · simp [List.dropWhile_cons, hx, ihh.2]

/-- contains on characters decides membership. -/
theorem contains_char_eq_false {c : Char} {r : Str} : r.contains c = false ↔ c ∉ r := by
  rw [Bool.eq_false_iff, Ne, List.contains_iff_exists_mem_beq]
  simp

/-- isVersion decomposes its argument into digits, a dot and digits. -/
theorem isVersion_parts {v : Str} (h : isVersion v = true) :
    ∃ a b, v = a ++ '.' :: b ∧ a ≠ [] ∧ (∀ x ∈ a, x.isDigit = true) ∧ b ≠ [] ∧
      (∀ x ∈ b, x.isDigit = true) := by
  unfold isVersion at h
  split at h
  case h_2 => simp at h
  case h_1 b heq =>
    simp only [Bool.and_eq_true, Bool.not_eq_true', List.isEmpty_eq_false,
      List.all_eq_true] at h
    obtain ⟨⟨h1, h2⟩, h3⟩ := h
    refine ⟨v.takeWhile (·.isDigit), b, ?_, h1, ?_, h2, h3⟩
    · conv_lhs => rw [← List.takeWhile_append_dropWhile (·.isDigit) v]
      rw [heq]
    · intro x hx
      exact List.all_eq_true.mp List.all_takeWhile x hx

/-- isVersion holds on digits, a dot and digits. -/
theorem isVersion_build (a b : Str) (ha1 : a ≠ []) (ha : ∀ x ∈ a, x.isDigit = true)
    (hb1 : b ≠ []) (hb : ∀ x ∈ b, x.isDigit = true) :
    isVersion (a ++ '.' :: b) = true := by
  obtain ⟨ht, hd⟩ := takeWhile_digits_append a '.' b ha (by decide)
  unfold isVersion
  rw [hd]
  simp [ht, isEmpty_false_of_ne a ha1, isEmpty_false_of_ne b hb1, List.all_eq_true]
  exact hb

/-- statusLineMatch succeeds on every line of the amended shape, capturing
its version, code digits and reason phrase. -/
theorem statusLineMatch_build (v c r : Str) (hv : isVersion v = true) (hc1 : c ≠ [])
    (hc : ∀ x ∈ c, x.isDigit = true) (hr1 : r ≠ []) (hr : '\n' ∉ r) :
    statusLineMatch ("SHIORI/".data ++ v ++ ' ' :: (c ++ ' ' :: r)) = some (v, c, r) := by
  obtain ⟨a, b, rfl, ha1, ha, hb1, hb⟩ := isVersion_parts hv
  have hline : "SHIORI/".data ++ (a ++ '.' :: b) ++ ' ' :: (c ++ ' ' :: r) =
      "SHIORI/".data ++ (a ++ '.' :: (b ++ ' ' :: (c ++ ' ' :: r))) := by
    simp [List.append_assoc]
  rw [hline]
  have h1 := takeWhile_digits_append a '.' (b ++ ' ' :: (c ++ ' ' :: r)) ha (by decide)
  have h2 := takeWhile_digits_append b ' ' (c ++ ' ' :: r) hb (by decide)
  have h3 := takeWhile_digits_append c ' ' r hc (by decide)
  simp only [statusLineMatch, dropLit_self, h1.1, h1.2, h2.1, h2.2, h3.1, h3.2,
    isEmpty_false_of_ne a ha1, isEmpty_false_of_ne b hb1, isEmpty_false_of_ne c hc1,
    isEmpty_false_of_ne r hr1, contains_char_eq_false.mpr hr, Bool.or_self, if_false]
  simp

/-- statusLineMatch succeeds only on lines of the amended shape, and its
captures decompose the line. -/
theorem statusLineMatch_parts {line ver code reason : Str}
    (h : statusLineMatch line = some (ver, code, reason)) :
    line = "SHIORI/".data ++ ver ++ ' ' :: (code ++ ' ' :: reason) ∧
    isVersion ver = true ∧ code ≠ [] ∧ (∀ x ∈ code, x.isDigit = true) ∧
    reason ≠ [] ∧ '\n' ∉ reason := by
  unfold statusLineMatch at h
  split at h
  · simp at h
  next rest heq0 =>
    split at h
    next r2 heq1 heq2 =>
      split at h
      next r4 heq3 heq4 =>
        split at h
        next reason0 heq5 heq6 =>
          by_cases hcond : (reason0.isEmpty || reason0.contains '\n') = true
          · rw [if_pos hcond] at h
            simp at h
          · rw [if_neg hcond] at h
            simp only [Bool.or_eq_true, not_or, Bool.not_eq_true] at hcond
            obtain ⟨hre, hrc⟩ := hcond
            simp only [Option.some.injEq, Prod.mk.injEq] at h
            obtain ⟨hver, hcode, hreason⟩ := h
            subst hver
            subst hcode
            subst hreason
            have hline : line = "SHIORI/".data ++ rest := dropLit_eq_some heq0
            have hrest : rest = rest.takeWhile (·.isDigit) ++ '.' :: r2 := by
              conv_lhs => rw [← List.takeWhile_append_dropWhile (·.isDigit) rest]
              rw [heq1]
            have hr2 : r2 = r2.takeWhile (·.isDigit) ++ ' ' :: r4 := by
              conv_lhs => rw [← List.takeWhile_append_dropWhile (·.isDigit) r2]
              rw [heq3]
            have hr4 : r4 = r4.takeWhile (·.isDigit) ++ ' ' :: reason0 := by
              conv_lhs => rw [← List.takeWhile_append_dropWhile (·.isDigit) r4]
              rw [heq5]
            refine ⟨?_, ?_, ?_, ?_, ?_, ?_⟩
            · rw [hline]
              conv_lhs => rw [hrest, hr2, hr4]
              simp [List.append_assoc]
            · exact isVersion_build (rest.takeWhile (·.isDigit)) (r2.takeWhile (·.isDigit))
                (List.isEmpty_eq_false.mp heq2)
                (fun x hx => List.all_eq_true.mp List.all_takeWhile x hx)
                (List.isEmpty_eq_false.mp heq4)
                (fun x hx => List.all_eq_true.mp List.all_takeWhile x hx)
            · exact List.isEmpty_eq_false.mp heq6
            · exact fun x hx => List.all_eq_true.mp List.all_takeWhile x hx
            · exact List.isEmpty_eq_false.mp hre
            · exact contains_char_eq_false.mp hrc
        next => simp at h
      next => simp at h
    next => simp at h

/-- C6 counterexample: the line "SHIORI/1.0 200 a\nb" has the claim's shape —
version digits-dot-digits, code of one-or-more digits and a reason phrase of
at least one character — yet the status-line pattern rejects it, because the
Go pattern's `.` does not match the newline inside the reason phrase, so
ParseResponse fails where the claim says matching must succeed. -/
theorem status_line_shape_cx :
    ("SHIORI/1.0 200 a\nb".data =
        "SHIORI/".data ++ "1.0".data ++ ' ' :: ("200".data ++ ' ' :: "a\nb".data) ∧
      isVersion "1.0".data = true ∧ "200".data ≠ [] ∧
      (∀ x ∈ "200".data, x.isDigit = true) ∧ "a\nb".data ≠ []) ∧
    statusLineMatch "SHIORI/1.0 200 a\nb".data = none ∧
    ParseResponse "SHIORI/1.0 200 a\nb\r\n\r\n".data =
      some ({ Code := 0, Protocol := Protocol.SHIORI, Version := [], Headers := [] },
        some (Err.ParseResponseError
          ("status line parse failed: ".data ++ "SHIORI/1.0 200 a\nb".data))) := by
  decide

/-- C6 (amended): the status-line pattern succeeds exactly on lines of the
shape SHIORI/version, space, code digits, space, and a non-empty reason
phrase containing no newline; on non-match ParseResponse fails with a
ParseResponseError carrying the raw line; on match the result is computed
from the version and code captures and the header lines only — the reason
capture is discarded — and an Atoi conversion error is propagated as the
returned error. -/
theorem status_line_spec :
    (∀ line, ((statusLineMatch line).isSome = true ↔ statusLineShapeSpec line)) ∧
    (∀ s statusLine headerLines, splitCRLF s = statusLine :: headerLines →
      statusLineMatch statusLine = none →
      ParseResponse s =
        some ({ Code := 0, Protocol := Protocol.SHIORI, Version := [], Headers := [] },
          some (Err.ParseResponseError ("status line parse failed: ".data ++ statusLine)))) ∧
    (∀ s statusLine headerLines ver codeDigits reason,
      splitCRLF s = statusLine :: headerLines →
      statusLineMatch statusLine = some (ver, codeDigits, reason) →
      ParseResponse s =
        some (match Atoi codeDigits, ParseHeaderLines headerLines with
          | (code, some e), _ =>
            ({ Code := code, Protocol := Protocol.SHIORI, Version := ver, Headers := [] },
             some e)
          | (code, none), (hs, herr) =>
            ({ Code := code, Protocol := Protocol.SHIORI, Version := ver, Headers := hs },
             herr))) := by
  refine ⟨?_, ?_, ?_⟩
  · intro line
    constructor
    · intro hsome
      obtain ⟨⟨ver, code, reason⟩, htr⟩ := Option.isSome_iff_exists.mp hsome
      obtain ⟨h1, h2, h3, h4, h5, h6⟩ := statusLineMatch_parts htr
      exact ⟨ver, code, reason, h1, h2, h3, h4, h5, h6⟩
    · rintro ⟨v, c, r, rfl, hv, hc1, hc, hr1, hr⟩
      rw [statusLineMatch_build v c r hv hc1 hc hr1 hr]
      rfl
  · intro s statusLine headerLines h1 h2
    simp only [ParseResponse, h1, h2]
  · intro s statusLine headerLines ver codeDigits reason h1 h2
    simp only [ParseResponse, h1, h2]
    cases ha : Atoi codeDigits with
    | mk code oe =>
      cases oe with
      | some e => simp [ha]
      | none =>
        cases hp : ParseHeaderLines headerLines with
        | mk hs herr =>
          cases herr with
          | some e => simp [ha, hp]
          | none => simp [ha, hp]

/-- status_line_spec applied to a concrete response message. -/
theorem status_line_spec_witness :
    ParseResponse "SHIORI/3.0 200 OK\r\nSender: A\r\n\r\n".data =
      some (match Atoi "200".data, ParseHeaderLines ["Sender: A".data, [], []] with
        | (code, some e), _ =>
          ({ Code := code, Protocol := Protocol.SHIORI, Version := "3.0".data, Headers := [] },
           some e)
        | (code, none), (hs, herr) =>
          ({ Code := code, Protocol := Protocol.SHIORI, Version := "3.0".data, Headers := hs },
           herr)) :=
  status_line_spec.2.2 "SHIORI/3.0 200 OK\r\nSender: A\r\n\r\n".data
    "SHIORI/3.0 200 OK".data ["Sender: A".data, [], []] "3.0".data "200".data "OK".data
    (by decide) (by decide)
